import Mathlib

/-!
Verification of the subnet bulk-reconciliation engine of `mreg-cli`
(`commands.py`, operation `opt_import` of the subnet command class).

The development shallowly embeds the operation: Python dicts become
association lists (later assignment overwrites), Python sets of keys become
duplicate-free key lists obtained by filtering, the fallible pieces of the
run (string subscripting of a `str`, `ipaddress.ip_network`, division) are
embedded in `Except`, and the remote calls issued by the apply phase are
collected into a list of `ApiCall` values in program order.
-/

set_option autoImplicit false

deriving instance DecidableEq for Except

namespace MregCli

/-- One subnet record, desired or observed.  `vlan`, `category` and
`location` are optional: the server may report them as `null`, and Python
compares `None` and concrete values by plain inequality. `frozen` and
`reserved` occur on records but are not compared by the diff. -/
structure SubnetRecord where
  range : String
  description : String
  vlan : Option Nat
  category : Option String
  location : Option String
  frozen : Bool
  reserved : Nat
deriving DecidableEq, Repr

/-- A Python dict from range string to record, as an association list in
insertion order; lookup takes the first matching binding and `dinsert`
keeps at most one binding per key, mirroring dict assignment. -/
abbrev Dict := List (String × SubnetRecord)

/-- Keys of the dict, in order. -/
def dkeys (d : Dict) : List String := d.map Prod.fst

/-- Lookup, `d[k]` guarded: first binding for `k`, if any. -/
def dget (d : Dict) (k : String) : Option SubnetRecord :=
  (d.find? (fun p => p.1 == k)).map Prod.snd

/-- Python dict assignment `d[k] = v`: overwrite the binding if the key is
present, otherwise append the new binding at the end. -/
def dinsert (d : Dict) (k : String) (v : SubnetRecord) : Dict :=
  if d.any (fun p => p.1 == k) then
    d.map (fun p => if p.1 == k then (k, v) else p)
  else d ++ [(k, v)]

@[simp] theorem dkeys_nil : dkeys [] = [] := rfl

@[simp] theorem dkeys_cons (p : String × SubnetRecord) (d : Dict) :
    dkeys (p :: d) = p.1 :: dkeys d := rfl

@[simp] theorem dget_nil (k : String) : dget [] k = none := rfl

theorem dget_isSome_iff_mem (d : Dict) (k : String) :
    (dget d k).isSome ↔ k ∈ dkeys d := by
  induction d with
  | nil => simp [dget, dkeys]
  | cons p d ih =>
      by_cases h : p.1 = k
      · simp [dget, List.find?, h, dkeys]
      · have hb : (p.1 == k) = false := by simp [h]
        have hne : k ≠ p.1 := fun hk => h hk.symm
        simp only [dget, List.find?, hb, dkeys_cons, List.mem_cons]
        rw [show ((d.find? (fun p => p.1 == k)).map Prod.snd).isSome =
          (dget d k).isSome from rfl, ih]
        simp [hne]

theorem dget_mem_keys {d : Dict} {k : String} (h : k ∈ dkeys d) :
    ∃ r, dget d k = some r := by
  have := (dget_isSome_iff_mem d k).mpr h
  exact Option.isSome_iff_exists.mp this

/-! ### Diff Engine

`opt_import` computes (source lines 1135-1138):

    subnets_delete = current_subnets.keys() - import_data.keys()
    subnets_post   = import_data.keys() - current_subnets.keys()
    subnets_patch  = set()
    subnets_ignore = import_data.keys() & current_subnets.keys()

and later (lines 1157-1164) adds to `subnets_patch` every member of
`subnets_ignore` whose `description`, `vlan`, `category` or `location`
field differs between the imported and the observed record.  The key sets
are embedded as filtered key lists (Python set iteration order is
unspecified; no property below depends on the order within a set). -/

/-- `current_subnets.keys() - import_data.keys()`. -/
def subnets_delete (cur imp : Dict) : List String :=
  (dkeys cur).filter (fun k => decide (k ∉ dkeys imp))

/-- `import_data.keys() - current_subnets.keys()`. -/
def subnets_post (cur imp : Dict) : List String :=
  (dkeys imp).filter (fun k => decide (k ∉ dkeys cur))

/-- `import_data.keys() & current_subnets.keys()`. -/
def subnets_ignore (cur imp : Dict) : List String :=
  (dkeys imp).filter (fun k => decide (k ∈ dkeys cur))

/-- The field comparison of lines 1160-1163: exact per-field inequality on
`description`, `vlan`, `category`, `location`; in particular `vlan = some 0`
and `vlan = none` compare as different. -/
def needsPatch (new cur : SubnetRecord) : Bool :=
  new.description != cur.description ||
  new.vlan != cur.vlan ||
  new.category != cur.category ||
  new.location != cur.location

/-- The fully accumulated `subnets_patch` set of lines 1157-1164. -/
def subnets_patch (cur imp : Dict) : List String :=
  (subnets_ignore cur imp).filter (fun k =>
    match dget cur k, dget imp k with
    | some c, some n => needsPatch n c
    | _, _ => false)

theorem mem_subnets_delete (cur imp : Dict) (k : String) :
    k ∈ subnets_delete cur imp ↔ k ∈ dkeys cur ∧ k ∉ dkeys imp := by
  simp [subnets_delete]

theorem mem_subnets_post (cur imp : Dict) (k : String) :
    k ∈ subnets_post cur imp ↔ k ∈ dkeys imp ∧ k ∉ dkeys cur := by
  simp [subnets_post]

theorem mem_subnets_patch (cur imp : Dict) (k : String) :
    k ∈ subnets_patch cur imp ↔
      k ∈ dkeys cur ∧ k ∈ dkeys imp ∧
        ∃ c n, dget cur k = some c ∧ dget imp k = some n ∧ needsPatch n c := by
  constructor
  · intro h
    simp only [subnets_patch, List.mem_filter, subnets_ignore] at h
    obtain ⟨hmem, hp⟩ := h
    simp only [List.mem_filter, decide_eq_true_eq] at hmem
    obtain ⟨c, hc⟩ := dget_mem_keys hmem.2
    obtain ⟨n, hn⟩ := dget_mem_keys hmem.1
    refine ⟨hmem.2, hmem.1, c, n, hc, hn, ?_⟩
    rw [hc, hn] at hp
    exact hp
  · rintro ⟨hcur, himp, c, n, hc, hn, hp⟩
    simp only [subnets_patch, List.mem_filter, subnets_ignore,
      decide_eq_true_eq]
    exact ⟨⟨himp, hcur⟩, by rw [hc, hn]; exact hp⟩

theorem needsPatch_iff (n c : SubnetRecord) :
    needsPatch n c = true ↔
      n.description ≠ c.description ∨ n.vlan ≠ c.vlan ∨
      n.category ≠ c.category ∨ n.location ≠ c.location := by
  simp only [needsPatch, Bool.or_eq_true, bne_iff_ne]
  tauto

/-! ### CIDR networks

`ipaddress.ip_network` on an IPv4 CIDR string: parse the dotted quad and
the mask length; a mask longer than 32 bits or a set host bit raises
`ValueError` (strict mode, the default), embedded as `none`. `overlaps`
tests intersection of the two address intervals. -/

/-- Python `str.split(sep)` for a one-character separator, on character
lists; splitting the empty string yields one empty group, like Python. -/
def splitOnChar (sep : Char) : List Char → List (List Char)
  | [] => [[]]
  | c :: cs =>
      match splitOnChar sep cs, decide (c = sep) with
      | r, true => [] :: r
      | [], false => [[c]]
      | g :: gs, false => (c :: g) :: gs

/-- A non-empty all-digit token as a number, `none` otherwise. -/
def digitsToNat? (l : List Char) : Option Nat :=
  match l with
  | [] => none
  | _ =>
      l.foldl (fun acc c =>
        match acc with
        | none => none
        | some n => if c.isDigit then some (n * 10 + (c.toNat - 48)) else none)
        (some 0)

/-- Dotted-quad IPv4 address as a 32-bit number. -/
def parseIpv4 (s : String) : Option Nat :=
  match (splitOnChar '.' s.data).mapM digitsToNat? with
  | some [a, b, c, d] =>
      if a ≤ 255 ∧ b ≤ 255 ∧ c ≤ 255 ∧ d ≤ 255 then
        some (((a * 256 + b) * 256 + c) * 256 + d)
      else none
  | _ => none

/-- An IPv4 network: aligned base address and mask length. -/
structure Ipv4Net where
  netaddr : Nat
  maskLen : Nat
deriving DecidableEq, Repr

/-- `ipaddress.ip_network(s)`; `none` models the `ValueError` raised on a
malformed string or on host bits set below the mask. -/
def ip_network (s : String) : Option Ipv4Net :=
  match splitOnChar '/' s.data with
  | [addr, len] =>
      match parseIpv4 ⟨addr⟩, digitsToNat? len with
      | some a, some l =>
          if l ≤ 32 ∧ a % 2 ^ (32 - l) = 0 then some ⟨a, l⟩ else none
      | _, _ => none
  | _ => none

/-- `x.overlaps(y)`: the address intervals intersect. -/
def netOverlaps (x y : Ipv4Net) : Bool :=
  decide (x.netaddr < y.netaddr + 2 ^ (32 - y.maskLen)) &&
  decide (y.netaddr < x.netaddr + 2 ^ (32 - x.maskLen))

/-! ### Remote calls and run outcome -/

/-- A JSON-ish field value as passed to the HTTP helpers: Python strings,
ints and `None`. -/
inductive FieldVal where
  | str (s : String)
  | num (n : Nat)
  | null
deriving DecidableEq, Repr

def FieldVal.ofOptNat : Option Nat → FieldVal
  | some n => .num n
  | none => .null

def FieldVal.ofOptStr : Option String → FieldVal
  | some s => .str s
  | none => .null

/-- One remote mutation issued by the apply phase. -/
inductive ApiCall where
  | deleteSubnet (range : String)
  | createSubnet (range description : String) (vlan : Option Nat)
      (category location : Option String) (frozen : Bool)
  | patchSubnet (range : String) (body : List (String × FieldVal))
deriving DecidableEq, Repr

/-- The keyword arguments of the `patch` call of lines 1193-1196: always
all four of `description`, `vlan`, `category`, `location`, taken from the
imported record. -/
def patchBody (d : SubnetRecord) : List (String × FieldVal) :=
  [("description", FieldVal.str d.description),
   ("vlan", FieldVal.ofOptNat d.vlan),
   ("category", FieldVal.ofOptStr d.category),
   ("location", FieldVal.ofOptStr d.location)]

/-- How a run can terminate before the apply phase.

`cliWarningSetup` and `cliWarningBlastRadius` are modelled from the spec:
`cli_warning` lives in the `util`/`log` modules of the repository, which
are not included under src/; per the spec, a blocking error aborts the
whole run and a rejected plan performs zero mutations, so `cli_warning`
is embedded as an error that ends the run.  The other three constructors
are ordinary Python exceptions raised by code visible in src/:
`typeErrorStrIndex` is the `TypeError` from evaluating `subnet['range']`
on line 1146 where `subnet` is a `str`; `valueErrorBadNetwork` is the
`ValueError` from `ipaddress.ip_network` on line 1150;
`zeroDivisionError` is the division by `len(current_subnets.keys())`
on line 1169 when the observed inventory is empty. -/
inductive RunError where
  | typeErrorStrIndex
  | valueErrorBadNetwork (s : String)
  | zeroDivisionError
  | cliWarningSetup
  | cliWarningBlastRadius
deriving DecidableEq, Repr

/-- The apply phase of lines 1174-1197: all DELETE calls, then all POST
calls, then all PATCH calls. -/
def planCalls (cur imp : Dict) : List ApiCall :=
  (subnets_delete cur imp).map ApiCall.deleteSubnet
    ++ (subnets_post cur imp).filterMap (fun r => (dget imp r).map (fun d =>
          ApiCall.createSubnet d.range d.description d.vlan d.category
            d.location d.frozen))
    ++ (subnets_patch cur imp).filterMap (fun r => (dget imp r).map (fun d =>
          ApiCall.patchSubnet r (patchBody d)))

/-- The comparison `changed / total > 0.2` of line 1169 as the
equivalent integer cross-multiplication, used so that the run is
kernel-computable; `blastExceeds_iff_ratio` proves it equal to the exact
rational comparison whenever `total` is non-zero (the `total = 0` case
raises `ZeroDivisionError` before this test is consulted). -/
def blastExceeds (changed total : Nat) : Bool :=
  decide (5 * changed > total)

theorem blastExceeds_iff_ratio (c t : Nat) (ht : t ≠ 0) :
    blastExceeds c t = true ↔ ((c : ℚ) / (t : ℚ) > 0.2) := by
  have ht' : (0 : ℚ) < (t : ℚ) := by
    exact_mod_cast Nat.pos_of_ne_zero ht
  rw [blastExceeds, decide_eq_true_iff]
  rw [show (0.2 : ℚ) = 1 / 5 by norm_num]
  simp only [gt_iff_lt]
  rw [div_lt_div_iff₀ (by norm_num) ht', one_mul]
  constructor
  · intro h
    have : (t : ℚ) < ((5 * c : ℕ) : ℚ) := by exact_mod_cast h
    push_cast at this
    linarith
  · intro h
    have : (t : ℚ) < ((5 * c : ℕ) : ℚ) := by push_cast; linarith
    exact_mod_cast this

/-- The reconciliation run of `opt_import` after the file has been parsed
into `imp` and the server snapshot into `cur` (source lines 1135-1197).
`used` is `get_subnet_used_list`; `force` is the presence of the literal
`y` among the command arguments.  Statements are embedded in source
order:

* lines 1141-1146: for each range slated for deletion with a non-empty
  in-use list, the code sets `ERROR = True` and then evaluates
  `subnet['range']` with `subnet` a `str`, raising `TypeError`;
* lines 1149-1154: each range slated for creation is parsed with
  `ip_network` (possible `ValueError`) and compared for overlap against
  `subnets_patch`, which at this point in the program is still the empty
  set created on line 1137 — the patch set is only populated afterwards,
  on lines 1157-1164;
* line 1166: `if ERROR: cli_warning(...)`;
* line 1169: the blast-radius test
  `(len(delete) + len(patch)) / len(current.keys()) > 0.2 and 'y' not in args`,
  whose division raises `ZeroDivisionError` on an empty inventory;
* lines 1174-1197: the apply phase, `planCalls`. -/
def opt_import_run (used : String → List String) (force : Bool)
    (imp cur : Dict) : Except RunError (List ApiCall) :=
  let dels := subnets_delete cur imp
  let posts := subnets_post cur imp
  let patchesAtOverlapCheck : List String := []
  if dels.any (fun s => !(used s).isEmpty) then
    .error .typeErrorStrIndex
  else
    match posts.find? (fun s => (ip_network s).isNone) with
    | some s => .error (.valueErrorBadNetwork s)
    | none =>
      let overlapFound := posts.any (fun n =>
        patchesAtOverlapCheck.any (fun e =>
          match ip_network n, ip_network e with
          | some a, some b => netOverlaps a b
          | _, _ => false))
      let patches := subnets_patch cur imp
      if overlapFound then .error .cliWarningSetup
      else if (dkeys cur).length = 0 then .error .zeroDivisionError
      else if blastExceeds (dels.length + patches.length)
                (dkeys cur).length && !force then
        .error .cliWarningBlastRadius
      else
        .ok (planCalls cur imp)

/-! ### Helper lemmas about the run -/

theorem run_type_error_of_inuse (used : String → List String) (force : Bool)
    (imp cur : Dict) (h : ∃ s ∈ subnets_delete cur imp, used s ≠ []) :
    opt_import_run used force imp cur = Except.error RunError.typeErrorStrIndex := by
  have hany : (subnets_delete cur imp).any (fun s => !(used s).isEmpty) = true := by
    obtain ⟨s, hs, hne⟩ := h
    refine List.any_eq_true.mpr ⟨s, hs, ?_⟩
    simp [List.isEmpty_iff, hne]
  simp [opt_import_run, hany]

theorem run_ok_inv {used : String → List String} {force : Bool}
    {imp cur : Dict} {calls : List ApiCall}
    (h : opt_import_run used force imp cur = Except.ok calls) :
    calls = planCalls cur imp := by
  simp only [opt_import_run] at h
  split at h
  · exact absurd h (by simp)
  · split at h
    · exact absurd h (by simp)
    · split at h
      · exact absurd h (by simp)
      · split at h
        · exact absurd h (by simp)
        · split at h
          · exact absurd h (by simp)
          · exact (Except.ok.injEq _ _).mp h.symm

/-! ### Concrete inventories used by the witnesses and counterexamples -/

def recCore : SubnetRecord :=
  ⟨"10.0.0.0/16", "core", some 1, none, none, false, 0⟩

def recNew24 : SubnetRecord :=
  ⟨"10.0.2.0/24", "newnet", some 2, none, none, false, 0⟩

def recFresh : SubnetRecord :=
  ⟨"10.0.3.0/24", "fresh", some 3, none, none, false, 0⟩

def recOldDesc : SubnetRecord :=
  ⟨"10.0.0.0/24", "old", some 7, some "office", some "oslo", false, 0⟩

def recNewDesc : SubnetRecord :=
  ⟨"10.0.0.0/24", "new", some 7, some "office", some "oslo", false, 0⟩

/-- Observed inventory with the single large network `10.0.0.0/16`. -/
def curOverlap : Dict := [("10.0.0.0/16", recCore)]

/-- Desired inventory keeping `10.0.0.0/16` unchanged and adding the
contained network `10.0.2.0/24`. -/
def impOverlap : Dict := [("10.0.0.0/16", recCore), ("10.0.2.0/24", recNew24)]

def curPatchOnly : Dict := [("10.0.0.0/24", recOldDesc)]

def impPatchOnly : Dict := [("10.0.0.0/24", recNewDesc)]

/-- `get_subnet_used_list` reporting no address in use anywhere. -/
def usedNone : String → List String := fun _ => []

/-- `get_subnet_used_list` reporting one live address on `10.0.1.0/24`. -/
def usedBusy : String → List String :=
  fun s => if s = "10.0.1.0/24" then ["10.0.1.5"] else []

def recBusy : SubnetRecord :=
  ⟨"10.0.1.0/24", "busy", some 9, none, none, false, 0⟩

/-! ### Claims about the Diff Engine -/

/-- C1: the diff computed by the run satisfies
`toDelete = O.keys − I.keys`, `toCreate = I.keys − O.keys`, and
`toUpdate ⊆ O.keys ∩ I.keys` contains exactly the ranges where at least
one of `description`, `vlan`, `category`, `location` differs by exact
value equality (in particular `vlan = some 0` on one side and
`vlan = none` on the other compare as different, since the fields are
compared as optional values with no normalization). -/
theorem diff_engine_partitions (cur imp : Dict) (k : String) :
    (k ∈ subnets_delete cur imp ↔ k ∈ dkeys cur ∧ k ∉ dkeys imp) ∧
    (k ∈ subnets_post cur imp ↔ k ∈ dkeys imp ∧ k ∉ dkeys cur) ∧
    (k ∈ subnets_patch cur imp ↔ k ∈ dkeys cur ∧ k ∈ dkeys imp ∧
      ∃ c n, dget cur k = some c ∧ dget imp k = some n ∧
        (n.description ≠ c.description ∨ n.vlan ≠ c.vlan ∨
         n.category ≠ c.category ∨ n.location ≠ c.location)) := by
  refine ⟨mem_subnets_delete cur imp k, mem_subnets_post cur imp k, ?_⟩
  rw [mem_subnets_patch]
  constructor
  · rintro ⟨h1, h2, c, n, hc, hn, hp⟩
    exact ⟨h1, h2, c, n, hc, hn, (needsPatch_iff n c).mp hp⟩
  · rintro ⟨h1, h2, c, n, hc, hn, hp⟩
    exact ⟨h1, h2, c, n, hc, hn, (needsPatch_iff n c).mpr hp⟩

/-- C9: if the observed inventory already equals the imported one (same
range keys, and equal `description`, `vlan`, `category`, `location` per
range) then the computed plan is empty. -/
theorem diff_idempotent (cur imp : Dict)
    (hkeys : ∀ k, k ∈ dkeys cur ↔ k ∈ dkeys imp)
    (hfields : ∀ k c n, dget cur k = some c → dget imp k = some n →
      n.description = c.description ∧ n.vlan = c.vlan ∧
      n.category = c.category ∧ n.location = c.location) :
    subnets_delete cur imp = [] ∧ subnets_post cur imp = [] ∧
      subnets_patch cur imp = [] := by
  refine ⟨?_, ?_, ?_⟩ <;> rw [List.eq_nil_iff_forall_not_mem]
  · intro k hk
    rw [mem_subnets_delete] at hk
    exact hk.2 ((hkeys k).mp hk.1)
  · intro k hk
    rw [mem_subnets_post] at hk
    exact hk.2 ((hkeys k).mpr hk.1)
  · intro k hk
    rw [mem_subnets_patch] at hk
    obtain ⟨_, _, c, n, hc, hn, hp⟩ := hk
    obtain ⟨e1, e2, e3, e4⟩ := hfields k c n hc hn
    rw [needsPatch_iff] at hp
    rcases hp with h | h | h | h
    exacts [h e1, h e2, h e3, h e4]

/-- Witness for C9 at a one-subnet inventory equal on both sides. -/
theorem diff_idempotent_witness :
    subnets_delete [("10.0.0.0/16", recCore)] [("10.0.0.0/16", recCore)] = [] ∧
    subnets_post [("10.0.0.0/16", recCore)] [("10.0.0.0/16", recCore)] = [] ∧
    subnets_patch [("10.0.0.0/16", recCore)] [("10.0.0.0/16", recCore)] = [] :=
  diff_idempotent _ _ (fun _ => Iff.rfl)
    (fun _ c n hc hn => by
      rw [hc] at hn
      cases hn
      exact ⟨rfl, rfl, rfl, rfl⟩)

/-! ### Claims about the guards -/

/-- C10 (implicit): whenever some range slated for deletion has a
non-empty in-use address list, the warning of line 1145 formats
`subnet['range']` where `subnet` is the range string itself, so the run
terminates with the string-indexing `TypeError` instead of recording the
documented blocking reason and warning message. -/
theorem inuse_guard_type_error (used : String → List String) (force : Bool)
    (imp cur : Dict) (h : ∃ s ∈ subnets_delete cur imp, used s ≠ []) :
    opt_import_run used force imp cur = Except.error RunError.typeErrorStrIndex :=
  run_type_error_of_inuse used force imp cur h

/-- Witness for C10: deleting the busy subnet `10.0.1.0/24` ends the run
with the `TypeError`. -/
theorem inuse_guard_type_error_witness :
    opt_import_run usedBusy false [] [("10.0.1.0/24", recBusy)] =
      Except.error RunError.typeErrorStrIndex :=
  inuse_guard_type_error usedBusy false [] [("10.0.1.0/24", recBusy)]
    (by decide)

/-- C4: a range slated for deletion whose in-use address list is
non-empty always aborts the run before any mutation, whatever the force
flag: the run never reaches the apply phase, so zero remote calls are
issued. -/
theorem inuse_deletion_never_applied (used : String → List String)
    (imp cur : Dict) (h : ∃ s ∈ subnets_delete cur imp, used s ≠ [])
    (force : Bool) :
    (opt_import_run used force imp cur).isOk = false := by
  rw [run_type_error_of_inuse used force imp cur h]
  rfl

/-- Witness for C4, with and without force. -/
theorem inuse_deletion_never_applied_witness :
    (opt_import_run usedBusy true impOverlap
        [("10.0.1.0/24", recBusy)]).isOk = false ∧
    (opt_import_run usedBusy false impOverlap
        [("10.0.1.0/24", recBusy)]).isOk = false :=
  ⟨inuse_deletion_never_applied usedBusy impOverlap _ (by decide) true,
   inuse_deletion_never_applied usedBusy impOverlap _ (by decide) false⟩

/-- C5 (code bug): with an empty observed inventory the blast-radius
expression of line 1169 divides by `len(current_subnets.keys()) = 0` and
the run dies with `ZeroDivisionError`, with or without force, instead of
treating the ratio as `0` and proceeding. -/
theorem empty_inventory_zero_division :
    opt_import_run usedNone false [("10.0.3.0/24", recFresh)] [] =
      Except.error RunError.zeroDivisionError ∧
    opt_import_run usedNone true [("10.0.3.0/24", recFresh)] [] =
      Except.error RunError.zeroDivisionError := by
  decide

/-- C2 (code bug): with `10.0.0.0/16` observed and a new contained
subnet `10.0.2.0/24` in the desired state, the two networks do overlap,
yet the run reports no overlap and happily issues the POST creating
`10.0.2.0/24`: the loop of lines 1149-1154 compares the new ranges
against `subnets_patch`, which is still the empty set created on line
1137 because it is only populated afterwards (lines 1157-1164). -/
theorem overlap_guard_never_fires :
    opt_import_run usedNone false impOverlap curOverlap =
      Except.ok [ApiCall.createSubnet "10.0.2.0/24" "newnet" (some 2)
        none none false] ∧
    ip_network "10.0.0.0/16" = some ⟨167772160, 16⟩ ∧
    ip_network "10.0.2.0/24" = some ⟨167772672, 24⟩ ∧
    netOverlaps ⟨167772160, 16⟩ ⟨167772672, 24⟩ = true := by
  decide

/-- Observed inventory of five sibling /24 networks, none in use. -/
def curFive : Dict :=
  [("10.0.0.0/24", ⟨"10.0.0.0/24", "n0", some 0, none, none, false, 0⟩),
   ("10.0.1.0/24", ⟨"10.0.1.0/24", "n1", some 1, none, none, false, 0⟩),
   ("10.0.2.0/24", ⟨"10.0.2.0/24", "n2", some 2, none, none, false, 0⟩),
   ("10.0.3.0/24", ⟨"10.0.3.0/24", "n3", some 3, none, none, false, 0⟩),
   ("10.0.4.0/24", ⟨"10.0.4.0/24", "n4", some 4, none, none, false, 0⟩)]

/-- `curFive` minus its last subnet: a 1/5 = 20% deletion ratio. -/
def impFourOfFive : Dict := curFive.take 4

/-- `curFive` minus its last two subnets: a 2/5 = 40% deletion ratio. -/
def impThreeOfFive : Dict := curFive.take 3

/-- C3: when no deletion candidate has addresses in use (so the guard of
lines 1141-1146 does not raise), every creation candidate parses as a
network, and the observed inventory is non-empty, the run is blocked
with the blast-radius warning exactly when the exact rational ratio
`(|toDelete| + |toUpdate|) / |observed|` strictly exceeds `0.2` and the
force flag is absent; otherwise it proceeds to the full plan.  A ratio
of exactly `0.2` therefore proceeds without force, and with force the
run proceeds for every ratio. -/
theorem blast_radius_guard (used : String → List String) (force : Bool)
    (imp cur : Dict)
    (hclean : ∀ s ∈ subnets_delete cur imp, used s = [])
    (hnets : ∀ s ∈ subnets_post cur imp, (ip_network s).isSome)
    (hnz : (dkeys cur).length ≠ 0) :
    (opt_import_run used force imp cur =
        Except.error RunError.cliWarningBlastRadius ↔
      ((((subnets_delete cur imp).length + (subnets_patch cur imp).length
          : ℕ) : ℚ) / (((dkeys cur).length : ℕ) : ℚ) > 0.2 ∧
        force = false)) ∧
    (opt_import_run used force imp cur =
        Except.error RunError.cliWarningBlastRadius ∨
      opt_import_run used force imp cur =
        Except.ok (planCalls cur imp)) := by
  have hany : (subnets_delete cur imp).any (fun s => !(used s).isEmpty)
      = false := by
    rw [List.any_eq_false]
    intro s hs
    simp [hclean s hs]
  have hfind : (subnets_post cur imp).find? (fun s => (ip_network s).isNone)
      = none := by
    refine List.find?_eq_none.mpr fun s hs => ?_
    have h := hnets s hs
    cases hip : ip_network s with
    | none => rw [hip] at h; simp at h
    | some v => simp [hip]
  have hrun : opt_import_run used force imp cur =
      if blastExceeds
          ((subnets_delete cur imp).length + (subnets_patch cur imp).length)
          (dkeys cur).length && !force then
        Except.error RunError.cliWarningBlastRadius
      else Except.ok (planCalls cur imp) := by
    simp only [opt_import_run, hany, hfind, Bool.false_eq_true, if_false,
      List.any_nil, List.any_eq_false]
    simp [hnz]
  rw [hrun]
  by_cases hb : (blastExceeds
      ((subnets_delete cur imp).length + (subnets_patch cur imp).length)
      (dkeys cur).length && !force) = true
  · rw [if_pos hb]
    obtain ⟨hb1, hb2⟩ : _ = true ∧ (!force) = true := by simpa using hb
    refine ⟨⟨fun _ => ⟨(blastExceeds_iff_ratio _ _ hnz).mp hb1, ?_⟩,
      fun _ => rfl⟩, Or.inl rfl⟩
    revert hb2
    cases force <;> simp
  · rw [if_neg hb]
    refine ⟨⟨fun h => absurd h (by simp), fun h => ?_⟩, Or.inr rfl⟩
    exfalso
    apply hb
    have h1 := (blastExceeds_iff_ratio _ _ hnz).mpr h.1
    have h2 : (!force) = true := by simp [h.2]
    simp [h1, h2]

/-- Witness for C3: against five observed subnets, deleting exactly one
(ratio 20%) proceeds without force, while deleting two (ratio 40%)
without force is blocked with the blast-radius warning. -/
theorem blast_radius_guard_witness :
    opt_import_run usedNone false impFourOfFive curFive =
      Except.ok (planCalls curFive impFourOfFive) ∧
    opt_import_run usedNone false impThreeOfFive curFive =
      Except.error RunError.cliWarningBlastRadius := by
  constructor
  · rcases (blast_radius_guard usedNone false impFourOfFive curFive
        (fun s _ => rfl) (by decide) (by decide)).2 with h | h
    · exact absurd h (by decide)
    · exact h
  · rcases (blast_radius_guard usedNone false impThreeOfFive curFive
        (fun s _ => rfl) (by decide) (by decide)).2 with h | h
    · exact h
    · exact absurd h (by decide)

/-! ### Claims about the Plan Executor -/

/-- Counterexample to C6 as stated: importing a change to only the
`description` field of `10.0.0.0/24` still issues a PATCH whose body
carries the `vlan` field (and `category` and `location`), although the
imported `vlan` equals the observed one. -/
theorem patch_includes_unchanged_field :
    opt_import_run usedNone true impPatchOnly curPatchOnly =
      Except.ok [ApiCall.patchSubnet "10.0.0.0/24"
        [("description", FieldVal.str "new"), ("vlan", FieldVal.num 7),
         ("category", FieldVal.str "office"),
         ("location", FieldVal.str "oslo")]] ∧
    (dget impPatchOnly "10.0.0.0/24").map SubnetRecord.vlan =
      (dget curPatchOnly "10.0.0.0/24").map SubnetRecord.vlan ∧
    ("vlan", FieldVal.num 7) ∈
      [("description", FieldVal.str "new"), ("vlan", FieldVal.num 7),
       ("category", FieldVal.str "office"),
       ("location", FieldVal.str "oslo")] := by
  decide

/-- C6 (amended): every PATCH issued by the apply phase carries all four
fields `description`, `vlan`, `category`, `location` with the imported
values, regardless of which subset actually changed. -/
theorem patch_requests_carry_all_fields (used : String → List String)
    (force : Bool) (imp cur : Dict) (calls : List ApiCall)
    (r : String) (body : List (String × FieldVal))
    (hrun : opt_import_run used force imp cur = Except.ok calls)
    (hmem : ApiCall.patchSubnet r body ∈ calls) :
    (dget imp r).map patchBody = some body := by
  rw [run_ok_inv hrun] at hmem
  simp only [planCalls, List.mem_append, List.mem_map,
    List.mem_filterMap] at hmem
  rcases hmem with (⟨s, hs, heq⟩ | ⟨s, hs, heq⟩) | ⟨s, hs, heq⟩
  · simp at heq
  · obtain ⟨d, hd, hgd⟩ := Option.map_eq_some'.mp heq
    simp at hgd
  · obtain ⟨d, hd, hgd⟩ := Option.map_eq_some'.mp heq
    obtain ⟨hsr, hbody⟩ := (ApiCall.patchSubnet.injEq _ _ _ _).mp hgd
    rw [← hsr, hd, ← hbody]
    rfl

/-- Witness for C6 (amended) at the description-only change. -/
theorem patch_requests_carry_all_fields_witness :
    (dget impPatchOnly "10.0.0.0/24").map patchBody =
      some [("description", FieldVal.str "new"), ("vlan", FieldVal.num 7),
            ("category", FieldVal.str "office"),
            ("location", FieldVal.str "oslo")] :=
  patch_requests_carry_all_fields usedNone true impPatchOnly curPatchOnly
    [ApiCall.patchSubnet "10.0.0.0/24"
      [("description", FieldVal.str "new"), ("vlan", FieldVal.num 7),
       ("category", FieldVal.str "office"),
       ("location", FieldVal.str "oslo")]]
    "10.0.0.0/24"
    [("description", FieldVal.str "new"), ("vlan", FieldVal.num 7),
     ("category", FieldVal.str "office"), ("location", FieldVal.str "oslo")]
    (by decide) (by decide)

/-- The phase of a remote call: 0 for DELETE, 1 for POST, 2 for PATCH. -/
def callPhase : ApiCall → Nat
  | .deleteSubnet _ => 0
  | .createSubnet _ _ _ _ _ _ => 1
  | .patchSubnet _ _ => 2

/-- C7: an accepted plan issues its remote calls as all the DELETE calls
(one per `toDelete` range), then all the POST calls (one per `toCreate`
range), then all the PATCH calls (one per `toUpdate` range); in the
emitted sequence no call of a later phase ever precedes a call of an
earlier phase. -/
theorem apply_phase_fixed_order (used : String → List String)
    (force : Bool) (imp cur : Dict) (calls : List ApiCall)
    (hrun : opt_import_run used force imp cur = Except.ok calls) :
    calls = (subnets_delete cur imp).map ApiCall.deleteSubnet
        ++ (subnets_post cur imp).filterMap (fun r =>
              (dget imp r).map (fun d => ApiCall.createSubnet d.range
                d.description d.vlan d.category d.location d.frozen))
        ++ (subnets_patch cur imp).filterMap (fun r =>
              (dget imp r).map (fun d =>
                ApiCall.patchSubnet r (patchBody d))) ∧
    calls.Pairwise (fun a b => callPhase a ≤ callPhase b) := by
  have hcalls := run_ok_inv hrun
  refine ⟨hcalls, ?_⟩
  rw [hcalls, planCalls]
  have h1 : ∀ x ∈ (subnets_delete cur imp).map ApiCall.deleteSubnet,
      callPhase x = 0 := by
    intro x hx
    obtain ⟨s, _, rfl⟩ := List.mem_map.mp hx
    rfl
  have h2 : ∀ x ∈ (subnets_post cur imp).filterMap (fun r =>
      (dget imp r).map (fun d => ApiCall.createSubnet d.range
        d.description d.vlan d.category d.location d.frozen)),
      callPhase x = 1 := by
    intro x hx
    obtain ⟨s, _, hs⟩ := List.mem_filterMap.mp hx
    obtain ⟨d, _, rfl⟩ := Option.map_eq_some'.mp hs
    rfl
  have h3 : ∀ x ∈ (subnets_patch cur imp).filterMap (fun r =>
      (dget imp r).map (fun d => ApiCall.patchSubnet r (patchBody d))),
      callPhase x = 2 := by
    intro x hx
    obtain ⟨s, _, hs⟩ := List.mem_filterMap.mp hx
    obtain ⟨d, _, rfl⟩ := Option.map_eq_some'.mp hs
    rfl
  rw [List.pairwise_append]
  refine ⟨?_, List.pairwise_of_forall_mem_list
      (fun a ha b hb => by rw [h3 a ha, h3 b hb]), ?_⟩
  · rw [List.pairwise_append]
    refine ⟨List.pairwise_of_forall_mem_list
        (fun a ha b hb => by rw [h1 a ha, h1 b hb]),
      List.pairwise_of_forall_mem_list
        (fun a ha b hb => by rw [h2 a ha, h2 b hb]),
      fun a ha b hb => by rw [h1 a ha, h2 b hb]; exact Nat.zero_le 1⟩
  · intro a ha b hb
    rw [h3 b hb]
    rcases List.mem_append.mp ha with h | h
    · rw [h1 a h]
      exact Nat.zero_le 2
    · rw [h2 a h]
      exact Nat.le_succ 1

/-- Observed inventory for the C7 witness: one subnet to delete, one to
keep and patch. -/
def curMix : Dict :=
  [("10.9.0.0/24", ⟨"10.9.0.0/24", "gone", some 9, none, none, false, 0⟩),
   ("10.8.0.0/24", ⟨"10.8.0.0/24", "keep", some 8, none, none, false, 0⟩)]

/-- Desired inventory for the C7 witness: patches `10.8.0.0/24` and adds
`10.7.0.0/24`. -/
def impMix : Dict :=
  [("10.8.0.0/24", ⟨"10.8.0.0/24", "kept", some 8, none, none, false, 0⟩),
   ("10.7.0.0/24", ⟨"10.7.0.0/24", "added", some 7, none, none, false, 0⟩)]

/-- The calls the forced mixed run issues, in order. -/
def callsMix : List ApiCall :=
  [ApiCall.deleteSubnet "10.9.0.0/24",
   ApiCall.createSubnet "10.7.0.0/24" "added" (some 7) none none false,
   ApiCall.patchSubnet "10.8.0.0/24"
     [("description", FieldVal.str "kept"), ("vlan", FieldVal.num 8),
      ("category", FieldVal.null), ("location", FieldVal.null)]]

/-- Witness for C7 at a forced run exercising all three phases. -/
theorem apply_phase_fixed_order_witness :
    callsMix = (subnets_delete curMix impMix).map ApiCall.deleteSubnet
        ++ (subnets_post curMix impMix).filterMap (fun r =>
              (dget impMix r).map (fun d => ApiCall.createSubnet d.range
                d.description d.vlan d.category d.location d.frozen))
        ++ (subnets_patch curMix impMix).filterMap (fun r =>
              (dget impMix r).map (fun d =>
                ApiCall.patchSubnet r (patchBody d))) ∧
    callsMix.Pairwise (fun a b => callPhase a ≤ callPhase b) :=
  apply_phase_fixed_order usedNone true impMix curMix callsMix (by decide)

/-! ### Import File Parser

For a line matching the grammar regex of line 1107, `opt_import` splits
the tag segment on `:` and folds over the tags (lines 1109-1118): a
location tag overwrites `info['location']`, a category tag is appended
to `info['category']` through `('%s %s' % (category, tag)).strip()`, and
anything else is written to the log with the line number; the loop never
aborts the run.  The record fields are then built on lines 1119-1126,
where empty `category`/`location` become `None` by Python truthiness and
the description is stripped. -/

/-- Python `str.strip()`: drop whitespace from both ends of the
character list. -/
def pyStripList (l : List Char) : List Char :=
  ((l.dropWhile Char.isWhitespace).reverse.dropWhile
    Char.isWhitespace).reverse

/-- Python `str.strip()` on strings. -/
def pyStrip (s : String) : String := ⟨pyStripList s.data⟩

/-- A tag in canonical form: non-empty with no whitespace at either
end (every realistic vocabulary entry). -/
def cleanTag (t : String) : Bool :=
  (match t.data.head? with
   | some c => !c.isWhitespace
   | none => false) &&
  (match t.data.getLast? with
   | some c => !c.isWhitespace
   | none => false)

/-- The loop state of lines 1110-1118 plus the diagnostics written to
the log file. -/
structure TagState where
  location : Option String
  category : String
  diags : List (Nat × String)
deriving DecidableEq, Repr

/-- One iteration of the tag loop of lines 1111-1118. -/
def tagStep (isLoc isCat : String → Bool) (ln : Nat)
    (st : TagState) (tag : String) : TagState :=
  if isLoc tag then { st with location := some tag }
  else if isCat tag then
    { st with category := pyStrip (st.category ++ " " ++ tag) }
  else { st with diags := st.diags ++ [(ln, tag)] }

/-- The tag list of line 1109: the tag segment split on `:`. -/
def tagsOfSegment (s : String) : List String :=
  (splitOnChar ':' s.data).map (fun l => (⟨l⟩ : String))

/-- The whole tag loop over a tag segment. -/
def processTags (isLoc isCat : String → Bool) (ln : Nat)
    (tagSegment : String) : TagState :=
  (tagsOfSegment tagSegment).foldl (tagStep isLoc isCat ln) ⟨none, "", []⟩

/-- The record built on lines 1119-1126 for one matching line, together
with the invalid-tag diagnostics of that line.  `vlans` is the external
range-to-VLAN mapping of `get_vlan_mapping` and `isLoc`/`isCat` are the
external tag vocabularies; the line parse itself has no failure case,
so a matching line always yields a record. -/
def lineRecord (vlans : String → Option Nat) (isLoc isCat : String → Bool)
    (ln : Nat) (rangeStr tagSegment descRaw : String) :
    SubnetRecord × List (Nat × String) :=
  let st := processTags isLoc isCat ln tagSegment
  ({ range := rangeStr
     description := pyStrip descRaw
     vlan := some ((vlans rangeStr).getD 0)
     category := if st.category = "" then none else some st.category
     location := match st.location with
       | some t => if t = "" then none else some t
       | none => none
     frozen := false
     reserved := 0 }, st.diags)

/-- The space-separated concatenation of a list of strings, in order. -/
def spaceJoin (l : List String) : String :=
  match l with
  | [] => ""
  | t :: ts => ts.foldl (fun a u => a ++ " " ++ u) t

/-! Strip lemmas for clean tags. -/

theorem dropWhile_eq_self_of_head {p : Char → Bool} {l : List Char}
    {c : Char} (hc : l.head? = some c) (hpc : p c = false) :
    l.dropWhile p = l := by
  cases l with
  | nil => cases hc
  | cons a as =>
      have : a = c := by simpa using hc
      subst this
      simp [List.dropWhile_cons, hpc]

theorem pyStripList_eq_self {l : List Char} {c c' : Char}
    (hh : l.head? = some c) (hc : c.isWhitespace = false)
    (hl : l.getLast? = some c') (hc' : c'.isWhitespace = false) :
    pyStripList l = l := by
  have h1 : l.dropWhile Char.isWhitespace = l :=
    dropWhile_eq_self_of_head hh hc
  have hh' : l.reverse.head? = some c' := by
    rw [List.head?_reverse, hl]
  have h2 : l.reverse.dropWhile Char.isWhitespace = l.reverse :=
    dropWhile_eq_self_of_head hh' hc'
  unfold pyStripList
  rw [h1, h2, List.reverse_reverse]

theorem cleanTag_parts {t : String} (h : cleanTag t = true) :
    (∃ c, t.data.head? = some c ∧ c.isWhitespace = false) ∧
    (∃ c, t.data.getLast? = some c ∧ c.isWhitespace = false) := by
  unfold cleanTag at h
  rw [Bool.and_eq_true] at h
  obtain ⟨h1, h2⟩ := h
  constructor
  · cases hh : t.data.head? with
    | none => rw [hh] at h1; cases h1
    | some c =>
        rw [hh] at h1
        exact ⟨c, rfl, by simpa using h1⟩
  · cases hh : t.data.getLast? with
    | none => rw [hh] at h2; cases h2
    | some c =>
        rw [hh] at h2
        exact ⟨c, rfl, by simpa using h2⟩

theorem cleanTag_ne_nil {t : String} (h : cleanTag t = true) :
    t.data ≠ [] := by
  obtain ⟨⟨c, hc, _⟩, _⟩ := cleanTag_parts h
  intro hnil
  rw [hnil] at hc
  cases hc

theorem cleanTag_ne_empty {t : String} (h : cleanTag t = true) :
    t ≠ "" := by
  intro he
  exact cleanTag_ne_nil h (by rw [he])

/-- Stripping `" " ++ t` for a clean `t` yields `t`. -/
theorem pyStrip_space_clean {t : String} (ht : cleanTag t = true) :
    pyStrip (" " ++ t) = t := by
  obtain ⟨⟨c, hc, hcw⟩, ⟨c', hc', hcw'⟩⟩ := cleanTag_parts ht
  apply String.ext
  show pyStripList (" " ++ t).data = t.data
  have hdata : (" " ++ t).data = ' ' :: t.data := by
    rw [String.data_append]
    rfl
  rw [hdata]
  unfold pyStripList
  rw [List.dropWhile_cons]
  have hws : (' '.isWhitespace) = true := by decide
  rw [hws]
  simp only [if_true]
  rw [dropWhile_eq_self_of_head hc hcw]
  rw [dropWhile_eq_self_of_head (by rw [List.head?_reverse, hc']) hcw']
  exact List.reverse_reverse _

/-- Stripping `a ++ " " ++ t` for clean `a` and `t` changes nothing. -/
theorem pyStrip_append_clean {a t : String} (ha : cleanTag a = true)
    (ht : cleanTag t = true) :
    pyStrip (a ++ " " ++ t) = a ++ " " ++ t := by
  obtain ⟨⟨c, hc, hcw⟩, _⟩ := cleanTag_parts ha
  obtain ⟨_, ⟨c', hc', hcw'⟩⟩ := cleanTag_parts ht
  apply String.ext
  show pyStripList (a ++ " " ++ t).data = (a ++ " " ++ t).data
  have hdata : (a ++ " " ++ t).data = a.data ++ ' ' :: t.data := by
    rw [String.data_append, String.data_append,
      show (" " : String).data = [' '] by decide, List.append_assoc]
    rfl
  rw [hdata]
  refine pyStripList_eq_self ?_ hcw ?_ hcw'
  · cases hd : a.data with
    | nil => exact absurd hd (cleanTag_ne_nil ha)
    | cons x xs =>
        rw [hd] at hc
        have : x = c := by simpa using hc
        subst this
        rfl
  · rw [List.getLast?_append_of_ne_nil]
    · rw [show (' ' :: t.data).getLast? = t.data.getLast? by
        cases hd : t.data with
        | nil => exact absurd hd (cleanTag_ne_nil ht)
        | cons x xs => rw [List.getLast?_cons_cons]]
      exact hc'
    · intro hnil
      cases hnil

/-- Appending another clean tag keeps the string clean. -/
theorem cleanTag_append {a t : String} (ha : cleanTag a = true)
    (ht : cleanTag t = true) : cleanTag (a ++ " " ++ t) = true := by
  obtain ⟨⟨c, hc, hcw⟩, _⟩ := cleanTag_parts ha
  obtain ⟨_, ⟨c', hc', hcw'⟩⟩ := cleanTag_parts ht
  have hdata : (a ++ " " ++ t).data = a.data ++ ' ' :: t.data := by
    rw [String.data_append, String.data_append,
      show (" " : String).data = [' '] by decide, List.append_assoc]
    rfl
  unfold cleanTag
  rw [Bool.and_eq_true, hdata]
  constructor
  · cases hd : a.data with
    | nil => exact absurd hd (cleanTag_ne_nil ha)
    | cons x xs =>
        rw [hd] at hc
        have : x = c := by simpa using hc
        subst this
        simpa using hcw
  · rw [List.getLast?_append_of_ne_nil _ (by intro h; cases h)]
    rw [show (' ' :: t.data).getLast? = t.data.getLast? by
      cases hd : t.data with
      | nil => exact absurd hd (cleanTag_ne_nil ht)
      | cons x xs => rw [List.getLast?_cons_cons]]
    rw [hc']
    simpa using hcw'

theorem spaceJoin_concat (cats : List String) (t : String) :
    spaceJoin (cats ++ [t]) =
      if cats = [] then t else spaceJoin cats ++ " " ++ t := by
  cases cats with
  | nil => simp [spaceJoin]
  | cons c cs =>
      rw [if_neg (List.cons_ne_nil c cs)]
      show (cs ++ [t]).foldl (fun a u => a ++ " " ++ u) c = _
      rw [List.foldl_append]
      rfl

theorem spaceJoin_clean (cats : List String)
    (h : ∀ t ∈ cats, cleanTag t = true) (hne : cats ≠ []) :
    cleanTag (spaceJoin cats) = true := by
  induction cats using List.reverseRecOn with
  | nil => exact absurd rfl hne
  | append_singleton cs t ih =>
      rw [spaceJoin_concat]
      by_cases hcs : cs = []
      · rw [if_pos hcs]
        exact h t (by simp)
      · rw [if_neg hcs]
        exact cleanTag_append (ih (fun u hu => h u (by simp [hu])) hcs)
          (h t (by simp))

/-- The tag loop, fully characterised: the final location is the last
location tag (if any), the final category string is the space-separated
concatenation of the category tags in order, and the diagnostics are the
tags in neither vocabulary, each paired with the line number. -/
theorem foldl_tagStep_spec (isLoc isCat : String → Bool) (ln : Nat)
    (hdisj : ∀ t, isLoc t = true → isCat t = false)
    (hcat : ∀ t, isCat t = true → cleanTag t = true)
    (ts : List String) :
    (ts.foldl (tagStep isLoc isCat ln) ⟨none, "", []⟩).location
        = (ts.filter isLoc).getLast? ∧
    (ts.foldl (tagStep isLoc isCat ln) ⟨none, "", []⟩).category
        = spaceJoin (ts.filter isCat) ∧
    (ts.foldl (tagStep isLoc isCat ln) ⟨none, "", []⟩).diags
        = (ts.filter (fun t => !isLoc t && !isCat t)).map
            (fun t => (ln, t)) := by
  induction ts using List.reverseRecOn with
  | nil => exact ⟨rfl, rfl, rfl⟩
  | append_singleton ts t ih =>
      obtain ⟨ih1, ih2, ih3⟩ := ih
      rw [List.foldl_append, List.filter_append, List.filter_append,
        List.filter_append]
      simp only [List.foldl_cons, List.foldl_nil]
      by_cases hl : isLoc t = true
      · have hc : isCat t = false := hdisj t hl
        refine ⟨?_, ?_, ?_⟩
        · rw [show List.filter isLoc [t] = [t] by simp [hl],
            List.getLast?_concat]
          simp [tagStep, hl]
        · rw [show List.filter isCat [t] = [] by simp [hc],
            List.append_nil]
          simpa [tagStep, hl] using ih2
        · rw [show List.filter (fun t => !isLoc t && !isCat t) [t] = []
            by simp [hl], List.append_nil]
          simpa [tagStep, hl] using ih3
      · have hl' : isLoc t = false := by
          revert hl
          cases isLoc t <;> simp
        by_cases hc : isCat t = true
        · refine ⟨?_, ?_, ?_⟩
          · rw [show List.filter isLoc [t] = [] by simp [hl'],
              List.append_nil]
            simpa [tagStep, hl', hc] using ih1
          · rw [show List.filter isCat [t] = [t] by simp [hc],
              spaceJoin_concat]
            have hstep : (tagStep isLoc isCat ln
                (ts.foldl (tagStep isLoc isCat ln) ⟨none, "", []⟩) t).category
                = pyStrip ((ts.foldl (tagStep isLoc isCat ln)
                    ⟨none, "", []⟩).category ++ " " ++ t) := by
              simp [tagStep, hl', hc]
            rw [hstep, ih2]
            by_cases hfe : ts.filter isCat = []
            · rw [if_pos hfe, hfe]
              rw [show spaceJoin [] ++ " " ++ t = " " ++ t by
                simp [spaceJoin]]
              exact pyStrip_space_clean (hcat t hc)
            · rw [if_neg hfe]
              exact pyStrip_append_clean
                (spaceJoin_clean _ (fun u hu =>
                  hcat u (List.of_mem_filter hu)) hfe)
                (hcat t hc)
          · rw [show List.filter (fun t => !isLoc t && !isCat t) [t] = []
              by simp [hl', hc], List.append_nil]
            simpa [tagStep, hl', hc] using ih3
        · have hc' : isCat t = false := by
            revert hc
            cases isCat t <;> simp
          refine ⟨?_, ?_, ?_⟩
          · rw [show List.filter isLoc [t] = [] by simp [hl'],
              List.append_nil]
            simpa [tagStep, hl', hc'] using ih1
          · rw [show List.filter isCat [t] = [] by simp [hc'],
              List.append_nil]
            simpa [tagStep, hl', hc'] using ih2
          · rw [show List.filter (fun t => !isLoc t && !isCat t) [t] = [t]
              by simp [hl', hc'], List.map_append]
            have hstep : (tagStep isLoc isCat ln
                (ts.foldl (tagStep isLoc isCat ln) ⟨none, "", []⟩) t).diags
                = (ts.foldl (tagStep isLoc isCat ln)
                    ⟨none, "", []⟩).diags ++ [(ln, t)] := by
              simp [tagStep, hl', hc']
            rw [hstep, ih3]
            rfl

theorem mem_of_getLast?_eq {α : Type} {l : List α} {a : α}
    (h : l.getLast? = some a) : a ∈ l := by
  obtain ⟨hne, he⟩ := List.mem_getLast?_eq_getLast (Option.mem_def.mpr h)
  exact he ▸ List.getLast_mem hne

/-- C8: for every line matching the import grammar, the produced
record's `location` is the last location tag on the line (absent when no
location tag appears), its `category` is the space-separated
concatenation of all category tags in file order (absent when none
appears), and every tag in neither vocabulary yields a diagnostic
carrying the line number, while the record is produced all the same (the
tag loop has no aborting branch).  Hypotheses describe the externally
supplied vocabularies: the two are disjoint (the code tries the location
vocabulary first, so a shared tag would count as location only), no
location tag is the empty string, and category tags are non-empty with
no surrounding whitespace. -/
theorem parsed_line_fields (vlans : String → Option Nat)
    (isLoc isCat : String → Bool) (ln : Nat)
    (rangeStr tagSegment descRaw : String)
    (hdisj : ∀ t, isLoc t = true → isCat t = false)
    (hloc : ∀ t, isLoc t = true → t ≠ "")
    (hcat : ∀ t, isCat t = true → cleanTag t = true) :
    (lineRecord vlans isLoc isCat ln rangeStr tagSegment
        descRaw).1.location
      = ((tagsOfSegment tagSegment).filter isLoc).getLast? ∧
    (lineRecord vlans isLoc isCat ln rangeStr tagSegment
        descRaw).1.category
      = (if (tagsOfSegment tagSegment).filter isCat = [] then none
         else some (spaceJoin ((tagsOfSegment tagSegment).filter
            isCat))) ∧
    (lineRecord vlans isLoc isCat ln rangeStr tagSegment descRaw).2
      = ((tagsOfSegment tagSegment).filter
          (fun t => !isLoc t && !isCat t)).map (fun t => (ln, t)) := by
  obtain ⟨h1, h2, h3⟩ := foldl_tagStep_spec isLoc isCat ln hdisj hcat
    (tagsOfSegment tagSegment)
  have hst : processTags isLoc isCat ln tagSegment
      = (tagsOfSegment tagSegment).foldl (tagStep isLoc isCat ln)
          ⟨none, "", []⟩ := rfl
  refine ⟨?_, ?_, ?_⟩
  · show (match (processTags isLoc isCat ln tagSegment).location with
      | some t => if t = "" then none else some t
      | none => none)
      = ((tagsOfSegment tagSegment).filter isLoc).getLast?
    rw [hst, h1]
    cases hgl : ((tagsOfSegment tagSegment).filter isLoc).getLast? with
    | none => rfl
    | some t =>
        have ht : isLoc t = true :=
          List.of_mem_filter (mem_of_getLast?_eq hgl)
        simp [hloc t ht]
  · show (if (processTags isLoc isCat ln tagSegment).category = ""
        then none
        else some (processTags isLoc isCat ln tagSegment).category)
      = _
    rw [hst, h2]
    by_cases hfe : (tagsOfSegment tagSegment).filter isCat = []
    · rw [hfe, if_pos rfl]
      rw [if_pos (show spaceJoin [] = "" from rfl)]
    · rw [if_neg hfe]
      rw [if_neg (cleanTag_ne_empty (spaceJoin_clean _
        (fun u hu => hcat u (List.of_mem_filter hu)) hfe))]
  · show (processTags isLoc isCat ln tagSegment).diags = _
    rw [hst, h3]

/-- Location vocabulary for the C8 witness. -/
def wLoc : String → Bool := fun t => t == "oslo"

/-- Category vocabulary for the C8 witness. -/
def wCat : String → Bool := fun t => t == "office" || t == "lab"

/-- Witness for C8: the line
`10.0.0.0/24 :oslo:office:unknowntag:lab:|desc` (line 3 of its file)
yields location `oslo`, category `office lab`, and one diagnostic for
`unknowntag` carrying the line number. -/
theorem parsed_line_fields_witness :
    (lineRecord (fun _ => none) wLoc wCat 3 "10.0.0.0/24"
        "oslo:office:unknowntag:lab" "desc").1.location = some "oslo" ∧
    (lineRecord (fun _ => none) wLoc wCat 3 "10.0.0.0/24"
        "oslo:office:unknowntag:lab" "desc").1.category
      = some "office lab" ∧
    (lineRecord (fun _ => none) wLoc wCat 3 "10.0.0.0/24"
        "oslo:office:unknowntag:lab" "desc").2
      = [(3, "unknowntag")] := by
  obtain ⟨h1, h2, h3⟩ := parsed_line_fields (fun _ => none) wLoc wCat 3
    "10.0.0.0/24" "oslo:office:unknowntag:lab" "desc"
    (fun t ht => by
      have he : t = "oslo" := by simpa [wLoc] using ht
      subst he
      decide)
    (fun t ht => by
      have he : t = "oslo" := by simpa [wLoc] using ht
      subst he
      decide)
    (fun t ht => by
      have he : t = "office" ∨ t = "lab" := by simpa [wCat] using ht
      rcases he with he | he <;> (subst he; decide))
  refine ⟨?_, ?_, ?_⟩
  · rw [h1]
    decide
  · rw [h2]
    decide
  · rw [h3]
    decide

end MregCli
